import Mathlib

/-!
A verification development for the `strip-ansi-escapes` crate: a filter
that removes ANSI/VT100 escape sequences from a byte stream, forwarding
only printable characters and linefeeds to a downstream sink.

The crate's own code (`src/lib.rs`) consists of the `Writer`, `Performer`
and `strip` items, which are embedded faithfully below.  The crate
delegates to two external collaborators that are not part of its source:

* the `vte` escape-sequence parser (a byte-level state machine classifying
  bytes into `print` / `execute` / `hook` / `put` / `unhook` /
  `osc_dispatch` / `csi_dispatch` / `esc_dispatch` callbacks), and
* the standard library's `LineWriter` line-buffering layer and `Cursor`
  in-memory sink.

Those two are modelled from the spec (each such definition carries a
`Modelled from the spec:` doc comment).  Bytes are `Nat`s (values below
256 in every input of interest), and I/O errors are identified by the
index of the failing downstream write attempt, so that distinct failures
are distinguishable.
-/

namespace StripAnsi

/-- Modelled from the spec: the downstream byte sink ("any destination
capable of accepting bytes and being flushed").  `received` is the data
accepted so far; to model I/O failure, each write attempt is numbered and
the attempt fails exactly when its index appears in `failAt`.  An
in-memory `Cursor` sink is the special case `failAt = []`. -/
structure Sink where
  received : List Nat
  failAt : List Nat
  attempts : Nat
deriving Repr, DecidableEq

/-- Modelled from the spec: one write attempt against the downstream sink.
Returns the updated sink and `some e` (the attempt index) on failure. -/
def Sink.write (s : Sink) (bs : List Nat) : Sink × Option Nat :=
  if s.attempts ∈ s.failAt then
    ({ s with attempts := s.attempts + 1 }, some s.attempts)
  else
    ({ s with received := s.received ++ bs, attempts := s.attempts + 1 }, none)

/-- Modelled from the spec: the line-buffering layer (`std::io::LineWriter`)
wrapping the downstream sink.  Spec section 3: "the downstream forwarding
layer must flush automatically whenever a linefeed byte is forwarded, and
otherwise may buffer". -/
structure LineWriter where
  sink : Sink
  buf : List Nat
deriving Repr, DecidableEq

/-- Modelled from the spec: writing bytes through the line-buffering layer.
Bytes containing a linefeed flush the buffer together with the new bytes to
the sink (one downstream attempt, which may fail); other bytes are
buffered and cannot fail.  On a failed attempt the previously buffered
bytes are retained. -/
def LineWriter.write (w : LineWriter) (bs : List Nat) : LineWriter × Option Nat :=
  if bs.contains 10 then
    match w.sink.write (w.buf ++ bs) with
    | (s, none) => ({ sink := s, buf := [] }, none)
    | (s, some e) => ({ w with sink := s }, some e)
  else
    ({ w with buf := w.buf ++ bs }, none)

/-- Modelled from the spec: flushing the line-buffering layer writes any
buffered bytes downstream; with an empty buffer no downstream attempt is
made. -/
def LineWriter.flush (w : LineWriter) : LineWriter × Option Nat :=
  if w.buf.isEmpty then (w, none)
  else
    match w.sink.write w.buf with
    | (s, none) => ({ sink := s, buf := [] }, none)
    | (s, some e) => ({ w with sink := s }, some e)

/-- Modelled from the spec: `LineWriter::into_inner` performs a final flush
and releases the sink; on flush failure it returns an error that still
carries the line writer (hence the sink and the unflushed buffer). -/
def LineWriter.into_inner (w : LineWriter) : Except (Nat × LineWriter) Sink :=
  match w.flush with
  | (w2, none) => Except.ok w2.sink
  | (w2, some e) => Except.error (e, w2)

/-- The classified tokens the escape-sequence parser hands to its
dispatcher: one constructor per callback of the `vte::Perform` trait, with
the callback's arguments (`params`, `intermediates`, `ignore`, final
byte), plus `skip` for bytes consumed silently by the state machine. -/
inductive Token where
  | print (c : Nat)
  | execute (b : Nat)
  | hook (params : List Int) (intermediates : List Nat) (ignore : Bool)
  | put (b : Nat)
  | unhook
  | oscDispatch (params : List (List Nat))
  | csiDispatch (params : List Int) (intermediates : List Nat) (ignore : Bool) (action : Nat)
  | escDispatch (params : List Int) (intermediates : List Nat) (ignore : Bool) (byte : Nat)
  | skip
deriving Repr, DecidableEq

/-- Modelled from the spec: the states of the escape-sequence parser
(`vte::Parser`), covering the grammar of spec section 6: CSI
(`ESC [ params final-byte`), OSC (`ESC ] ... BEL-or-ST`), DCS
(`ESC P ... ST`) and two-byte ESC-dispatch sequences.  Since the
dispatcher discards every sequence token uniformly, the CSI parameter /
intermediate sub-states are collapsed into one `csi` state. -/
inductive PState where
  | ground
  | escape
  | escapeInter
  | csi
  | osc
  | dcs
deriving Repr, DecidableEq

/-- Modelled from the spec: one step of the escape-sequence parser.
Classifies byte `b` in state `st`, returning the next state and the token
dispatched to the `Perform` callback target. -/
def advance : PState → Nat → PState × Token
  | .ground, b =>
    if b = 0x1B then (.escape, .skip)
    else if b < 0x20 then (.ground, .execute b)
    else if b = 0x7F then (.ground, .skip)
    else (.ground, .print b)
  | .escape, b =>
    if b = 0x1B then (.escape, .skip)
    else if b < 0x20 then (.escape, .execute b)
    else if b = 0x5B then (.csi, .skip)
    else if b = 0x5D then (.osc, .skip)
    else if b = 0x50 then (.dcs, .hook [] [] false)
    else if b < 0x30 then (.escapeInter, .skip)
    else if b ≤ 0x7E then (.ground, .escDispatch [] [] false b)
    else (.escape, .skip)
  | .escapeInter, b =>
    if b = 0x1B then (.escape, .skip)
    else if b < 0x20 then (.escapeInter, .execute b)
    else if b < 0x30 then (.escapeInter, .skip)
    else if b ≤ 0x7E then (.ground, .escDispatch [] [] false b)
    else (.escapeInter, .skip)
  | .csi, b =>
    if b = 0x1B then (.escape, .skip)
    else if b < 0x20 then (.csi, .execute b)
    else if b < 0x40 then (.csi, .skip)
    else if b ≤ 0x7E then (.ground, .csiDispatch [] [] false b)
    else (.csi, .skip)
  | .osc, b =>
    if b = 0x07 then (.ground, .oscDispatch [])
    else if b = 0x1B then (.escape, .oscDispatch [])
    else (.osc, .skip)
  | .dcs, b =>
    if b = 0x1B then (.escape, .unhook)
    else (.dcs, .put b)

/-- The dispatcher (`Performer` in `src/lib.rs`): the line-buffered writer
over the downstream sink, plus the pending-error slot `err`
(`err: Option<io::Error>` in the source). -/
structure Performer where
  writer : LineWriter
  err : Option Nat
deriving Repr, DecidableEq

/-- The `Perform` impl for `Performer` in `src/lib.rs`: a printable
character is written to the line-buffered writer and `err` is assigned the
outcome (`self.err = write!(self.writer, "{}", c).err()`); an executed
linefeed is written likewise (`self.err = writeln!(self.writer, "").err()`);
every other callback does nothing. -/
def Performer.perform (p : Performer) : Token → Performer
  | .print c =>
    let r := p.writer.write [c]
    { writer := r.1, err := r.2 }
  | .execute b =>
    if b = 10 then
      let r := p.writer.write [10]
      { writer := r.1, err := r.2 }
    else p
  | _ => p

/-- The `Performer::into_inner` method in `src/lib.rs`: delegates to the line
writer's `into_inner`. -/
def Performer.into_inner (p : Performer) : Except (Nat × LineWriter) Sink :=
  p.writer.into_inner

/-- The `Writer` struct in `src/lib.rs`: a `Performer` plus the parser
state, which persists across write calls. -/
structure Writer where
  performer : Performer
  parser : PState
deriving Repr, DecidableEq

/-- The `Writer::new` constructor in `src/lib.rs`: a fresh line-buffering layer over the
given sink, no pending error, parser in its initial (ground) state. -/
def Writer.new (sink : Sink) : Writer :=
  { performer := { writer := { sink := sink, buf := [] }, err := none }
    parser := .ground }

/-- One iteration of the loop in `Writer::write`:
`self.parser.advance(&mut self.performer, *b)` — the parser consumes one
byte and the performer handles the dispatched token. -/
def Writer.feed (wr : Writer) (b : Nat) : Writer :=
  let r := advance wr.parser b
  { parser := r.1, performer := wr.performer.perform r.2 }

/-- The body of the loop in `Writer::write`: feed every byte of the
buffer to the parser in order. -/
def Writer.run (wr : Writer) (bs : List Nat) : Writer :=
  bs.foldl Writer.feed wr

/-- The `Writer::write` method in `src/lib.rs`: feed every byte of the buffer to the
parser in order, then `self.performer.err.take()` — return the recorded
error if there is one (clearing the slot), else `Ok(buf.len())`. -/
def Writer.write (wr : Writer) (bs : List Nat) : Writer × Except Nat Nat :=
  let w := wr.run bs
  match w.performer.err with
  | some e => ({ w with performer := { w.performer with err := none } }, Except.error e)
  | none => (w, Except.ok bs.length)

/-- The `Writer::into_inner` method in `src/lib.rs`: delegates to
`Performer::into_inner`. -/
def Writer.into_inner (wr : Writer) : Except (Nat × LineWriter) Sink :=
  wr.performer.into_inner

/-- Modelled from the spec: `Write::write_all` (standard library), as used
by `strip`.  The loop collapses to a single `write` call because this
writer's `write` always consumes the full buffer or fails
(`write_never_partial` below). -/
def Writer.write_all (wr : Writer) (bs : List Nat) : Writer × Option Nat :=
  match wr.write bs with
  | (w2, Except.error e) => (w2, some e)
  | (w2, Except.ok _) => (w2, none)

/-- Overwrite the pending-error slot.  Used to state that processing a
buffer is insensitive to the slot's contents. -/
def Writer.setErr (wr : Writer) (e : Option Nat) : Writer :=
  { wr with performer := { wr.performer with err := e } }

/-- Empty the pending-error slot (the effect of `Option::take`). -/
def Writer.clearErr (wr : Writer) : Writer :=
  wr.setErr none

/-- A sequence of `Writer::write` calls, one per chunk, keeping the
writer state across calls. -/
def Writer.writeSeq (wr : Writer) (bss : List (List Nat)) : Writer :=
  bss.foldl (fun w bs => (w.write bs).1) wr

/-- Instrumented version of `Performer.perform` that also reports the
outcomes of the forwarding attempts it made against the line-buffered
writer (at most one per token): `none` for a successful attempt, `some e`
for a failed one. -/
def Performer.performT (p : Performer) : Token → Performer × List (Option Nat)
  | .print c =>
    let r := p.writer.write [c]
    ({ writer := r.1, err := r.2 }, [r.2])
  | .execute b =>
    if b = 10 then
      let r := p.writer.write [10]
      ({ writer := r.1, err := r.2 }, [r.2])
    else (p, [])
  | _ => (p, [])

/-- Instrumented version of `Writer.feed`, accumulating forwarding
outcomes. -/
def Writer.feedT (x : Writer × List (Option Nat)) (b : Nat) : Writer × List (Option Nat) :=
  let r := advance x.1.parser b
  let q := x.1.performer.performT r.2
  ({ parser := r.1, performer := q.1 }, x.2 ++ q.2)

/-- The outcomes, in order, of every forwarding attempt made while
processing `bs` from state `wr`. -/
def Writer.trace (wr : Writer) (bs : List Nat) : List (Option Nat) :=
  (bs.foldl Writer.feedT (wr, [])).2

/-- The in-memory `Cursor::new(Vec::new())` sink used by `strip`: empty,
and no downstream attempt ever fails. -/
def cursorSink : Sink := { received := [], failAt := [], attempts := 0 }

/-- The `strip` function in `src/lib.rs`: build a `Writer` over a fresh in-memory
cursor, `write_all` the data, then `into_inner` the writer and the cursor
to recover the accumulated bytes. -/
def strip (data : List Nat) : Except Nat (List Nat) :=
  let wr := Writer.new cursorSink
  match wr.write_all data with
  | (_, some e) => Except.error e
  | (w2, none) =>
    match w2.into_inner with
    | Except.error r => Except.error r.1
    | Except.ok s => Except.ok s.received

/-- Following the spec's words for the explicit round-trip: "constructing
a Writer over a fresh in-memory buffer, writing the whole input once, and
unwrapping the writer to recover the buffer".  To be compared with
`strip`. -/
def stripViaWriter (data : List Nat) : Except Nat (List Nat) :=
  let wr := Writer.new cursorSink
  match wr.write data with
  | (_, Except.error e) => Except.error e
  | (w2, Except.ok _) =>
    match w2.into_inner with
    | Except.error r => Except.error r.1
    | Except.ok s => Except.ok s.received

/-- A printable byte: the range the parser classifies as a literal
character in ground state. -/
def printableByte (b : Nat) : Bool := decide (0x20 ≤ b ∧ b ≤ 0x7E)

/-- A CSI parameter byte (`0x30 ..= 0x3F`). -/
def csiParamByte (b : Nat) : Bool := decide (0x30 ≤ b ∧ b ≤ 0x3F)

/-- A CSI final byte (`0x40 ..= 0x7E`). -/
def csiFinalByte (b : Nat) : Bool := decide (0x40 ≤ b ∧ b ≤ 0x7E)

/-- A piece of an input interleaving printable text with well-formed CSI
sequences: either a run of printable bytes or one CSI sequence
`ESC [ params final-byte`. -/
inductive Chunk where
  | text (bs : List Nat)
  | csiSeq (params : List Nat) (finalByte : Nat)
deriving Repr, DecidableEq

/-- Well-formedness of a chunk: text is printable; a CSI sequence has
parameter bytes followed by a final byte. -/
def Chunk.wf : Chunk → Bool
  | .text bs => bs.all printableByte
  | .csiSeq ps f => ps.all csiParamByte && csiFinalByte f

/-- The bytes of a chunk as they appear in the input. -/
def Chunk.render : Chunk → List Nat
  | .text bs => bs
  | .csiSeq ps f => 0x1B :: 0x5B :: (ps ++ [f])

/-- The bytes of a chunk that survive stripping: text survives, a CSI
sequence is removed. -/
def Chunk.visible : Chunk → List Nat
  | .text bs => bs
  | .csiSeq _ _ => []

/-- An interleaved input, as raw bytes. -/
def renderAll (cs : List Chunk) : List Nat := (cs.map Chunk.render).flatten

/-- The expected output: the input with every CSI sequence removed and
all other bytes preserved in order. -/
def visibleAll (cs : List Chunk) : List Nat := (cs.map Chunk.visible).flatten

/-- A sink whose first write attempt fails and whose later attempts
succeed. -/
def failFirstSink : Sink := { received := [], failAt := [0], attempts := 0 }

/-- A sink whose second write attempt fails and whose other attempts
succeed. -/
def failSecondSink : Sink := { received := [], failAt := [1], attempts := 0 }

/-- A writer over a never-failing sink whose line-buffering layer holds
one unflushed byte. -/
def bufferedW : Writer :=
  { performer := { writer := { sink := cursorSink, buf := [0x61] }, err := none }
    parser := .ground }

/-- The invariant maintained while a never-failing writer (such as the
one `strip` builds) processes printable text, linefeeds and escape
sequences from the ground state: `out` is the total content forwarded so
far (flushed to the sink plus still line-buffered). -/
def Inv (wr : Writer) (out : List Nat) : Prop :=
  wr.parser = .ground ∧
  wr.performer.err = none ∧
  wr.performer.writer.sink.failAt = [] ∧
  wr.performer.writer.sink.received ++ wr.performer.writer.buf = out

@[simp] lemma run_nil (wr : Writer) : wr.run [] = wr := rfl

@[simp] lemma run_cons (wr : Writer) (b : Nat) (bs : List Nat) :
    wr.run (b :: bs) = (wr.feed b).run bs := rfl

lemma run_append (wr : Writer) (bs1 bs2 : List Nat) :
    wr.run (bs1 ++ bs2) = (wr.run bs1).run bs2 := by
  simp [Writer.run]

@[simp] lemma perform_skip (p : Performer) : p.perform .skip = p := rfl

@[simp] lemma perform_hook (p : Performer) (ps : List Int) (is : List Nat) (ig : Bool) :
    p.perform (.hook ps is ig) = p := rfl

@[simp] lemma perform_put (p : Performer) (b : Nat) : p.perform (.put b) = p := rfl

@[simp] lemma perform_unhook (p : Performer) : p.perform .unhook = p := rfl

@[simp] lemma perform_osc (p : Performer) (ps : List (List Nat)) :
    p.perform (.oscDispatch ps) = p := rfl

@[simp] lemma perform_csi_dispatch (p : Performer) (ps : List Int) (is : List Nat)
    (ig : Bool) (a : Nat) : p.perform (.csiDispatch ps is ig a) = p := rfl

@[simp] lemma perform_esc_dispatch (p : Performer) (ps : List Int) (is : List Nat)
    (ig : Bool) (b : Nat) : p.perform (.escDispatch ps is ig b) = p := rfl

lemma perform_execute_other (p : Performer) (b : Nat) (h : b ≠ 10) :
    p.perform (.execute b) = p := by
  simp [Performer.perform, h]

lemma feed_ground_print (wr : Writer) (b : Nat) (hg : wr.parser = .ground)
    (h1 : 0x20 ≤ b) (h2 : b ≤ 0x7E) :
    wr.feed b =
      { parser := .ground
        performer :=
          { writer := { wr.performer.writer with
              buf := wr.performer.writer.buf ++ [b] }
            err := none } } := by
  have hne27 : ¬ b = 0x1B := by omega
  have hlt : ¬ b < 0x20 := by omega
  have hne127 : ¬ b = 0x7F := by omega
  have hne10 : ¬ b = 10 := by omega
  have hne10s : ¬ (10 = b) := by omega
  simp [Writer.feed, hg, advance, hne27, hlt, hne127, Performer.perform,
    LineWriter.write, hne10, hne10s]

lemma feed_ground_lf (wr : Writer) (hg : wr.parser = .ground)
    (hf : wr.performer.writer.sink.failAt = []) :
    wr.feed 10 =
      { parser := .ground
        performer :=
          { writer :=
              { sink := { wr.performer.writer.sink with
                  received := wr.performer.writer.sink.received ++
                    (wr.performer.writer.buf ++ [10])
                  attempts := wr.performer.writer.sink.attempts + 1 }
                buf := [] }
            err := none } } := by
  simp [Writer.feed, hg, advance, Performer.perform, LineWriter.write,
    Sink.write, hf]

lemma feed_ground_esc (wr : Writer) (hg : wr.parser = .ground) :
    wr.feed 0x1B = { wr with parser := .escape } := by
  simp [Writer.feed, hg, advance]

lemma feed_escape_lbracket (wr : Writer) (hg : wr.parser = .escape) :
    wr.feed 0x5B = { wr with parser := .csi } := by
  simp [Writer.feed, hg, advance]

lemma feed_escape_twobyte (wr : Writer) (b : Nat) (hg : wr.parser = .escape)
    (h1 : 0x30 ≤ b) (h2 : b ≤ 0x7E) (h3 : b ≠ 0x5B) (h4 : b ≠ 0x5D) (h5 : b ≠ 0x50) :
    wr.feed b = { wr with parser := .ground } := by
  have hne27 : ¬ b = 0x1B := by omega
  have hlt : ¬ b < 0x20 := by omega
  have hlt48 : ¬ b < 0x30 := by omega
  simp [Writer.feed, hg, advance, hne27, hlt, hlt48, h2, h3, h4, h5]

lemma feed_csi_param (wr : Writer) (b : Nat) (hg : wr.parser = .csi)
    (h1 : 0x30 ≤ b) (h2 : b ≤ 0x3F) :
    wr.feed b = { wr with parser := .csi } := by
  have hne27 : ¬ b = 0x1B := by omega
  have hlt : ¬ b < 0x20 := by omega
  have hlt64 : b < 0x40 := by omega
  simp [Writer.feed, hg, advance, hne27, hlt, hlt64]

lemma feed_csi_final (wr : Writer) (b : Nat) (hg : wr.parser = .csi)
    (h1 : 0x40 ≤ b) (h2 : b ≤ 0x7E) :
    wr.feed b = { wr with parser := .ground } := by
  have hne27 : ¬ b = 0x1B := by omega
  have hlt : ¬ b < 0x20 := by omega
  have hlt64 : ¬ b < 0x40 := by omega
  simp [Writer.feed, hg, advance, hne27, hlt, hlt64, h2]

lemma Inv.print {wr : Writer} {out : List Nat} {b : Nat} (h : Inv wr out)
    (h1 : 0x20 ≤ b) (h2 : b ≤ 0x7E) : Inv (wr.feed b) (out ++ [b]) := by
  obtain ⟨hg, he, hf, ho⟩ := h
  rw [feed_ground_print wr b hg h1 h2]
  exact ⟨rfl, rfl, hf, by simp [← ho]⟩

lemma Inv.lf {wr : Writer} {out : List Nat} (h : Inv wr out) :
    Inv (wr.feed 10) (out ++ [10]) := by
  obtain ⟨hg, he, hf, ho⟩ := h
  rw [feed_ground_lf wr hg hf]
  exact ⟨rfl, rfl, hf, by simp [← ho]⟩

lemma Inv.textRun {bs : List Nat} {wr : Writer} {out : List Nat} (h : Inv wr out)
    (hb : ∀ b ∈ bs, (0x20 ≤ b ∧ b ≤ 0x7E) ∨ b = 10) :
    Inv (wr.run bs) (out ++ bs) := by
  induction bs generalizing wr out with
  | nil => simpa using h
  | cons b bs ih =>
    rw [run_cons]
    have hstep : Inv (wr.feed b) (out ++ [b]) := by
      rcases hb b (List.mem_cons_self b bs) with ⟨h1, h2⟩ | h10
      · exact h.print h1 h2
      · subst h10; exact h.lf
    have := ih hstep (fun x hx => hb x (List.mem_cons_of_mem _ hx))
    simpa using this

lemma run_csi_params (ps : List Nat) (wr : Writer) (hg : wr.parser = .csi)
    (hp : ∀ b ∈ ps, 0x30 ≤ b ∧ b ≤ 0x3F) : wr.run ps = wr := by
  induction ps generalizing wr with
  | nil => rfl
  | cons b ps ih =>
    obtain ⟨h1, h2⟩ := hp b (List.mem_cons_self b ps)
    rw [run_cons, feed_csi_param wr b hg h1 h2]
    have hwr : ({ wr with parser := PState.csi } : Writer) = wr := by rw [← hg]
    rw [hwr]
    exact ih wr hg (fun x hx => hp x (List.mem_cons_of_mem _ hx))

lemma Inv.csiRun {wr : Writer} {out : List Nat} {ps : List Nat} {f : Nat}
    (h : Inv wr out) (hp : ∀ b ∈ ps, 0x30 ≤ b ∧ b ≤ 0x3F)
    (hf1 : 0x40 ≤ f) (hf2 : f ≤ 0x7E) :
    Inv (wr.run (0x1B :: 0x5B :: (ps ++ [f]))) out := by
  obtain ⟨hg, he, hfA, ho⟩ := h
  rw [run_cons, run_cons, feed_ground_esc _ hg, feed_escape_lbracket _ rfl,
    run_append, run_csi_params ps _ rfl hp, run_cons, feed_csi_final _ f rfl hf1 hf2]
  exact ⟨rfl, he, hfA, ho⟩

lemma Inv.twoByteRun {wr : Writer} {out : List Nat} {b : Nat} (h : Inv wr out)
    (h1 : 0x30 ≤ b) (h2 : b ≤ 0x7E) (h3 : b ≠ 0x5B) (h4 : b ≠ 0x5D) (h5 : b ≠ 0x50) :
    Inv (wr.run [0x1B, b]) out := by
  obtain ⟨hg, he, hfA, ho⟩ := h
  rw [run_cons, run_cons, feed_ground_esc _ hg,
    feed_escape_twobyte _ b rfl h1 h2 h3 h4 h5]
  exact ⟨rfl, he, hfA, ho⟩

lemma Inv.chunk {wr : Writer} {out : List Nat} {c : Chunk} (h : Inv wr out)
    (hw : c.wf = true) : Inv (wr.run c.render) (out ++ c.visible) := by
  cases c with
  | text bs =>
    simp only [Chunk.wf, List.all_eq_true, printableByte, decide_eq_true_eq] at hw
    exact h.textRun (fun b hb => Or.inl (hw b hb))
  | csiSeq ps f =>
    simp only [Chunk.wf, Bool.and_eq_true, List.all_eq_true, csiParamByte,
      csiFinalByte, decide_eq_true_eq] at hw
    obtain ⟨hps, hf1, hf2⟩ := hw
    simpa [Chunk.render, Chunk.visible] using h.csiRun hps hf1 hf2

lemma Inv.chunks {cs : List Chunk} {wr : Writer} {out : List Nat} (h : Inv wr out)
    (hw : ∀ c ∈ cs, c.wf = true) :
    Inv (wr.run (renderAll cs)) (out ++ visibleAll cs) := by
  induction cs generalizing wr out with
  | nil => simpa [renderAll, visibleAll] using h
  | cons c cs ih =>
    have h1 := h.chunk (hw c (List.mem_cons_self c cs))
    have h2 := ih h1 (fun x hx => hw x (List.mem_cons_of_mem _ hx))
    simpa [renderAll, visibleAll, run_append] using h2

lemma inv_new : Inv (Writer.new cursorSink) [] := ⟨rfl, rfl, rfl, rfl⟩

lemma write_of_err_none {wr : Writer} {bs : List Nat}
    (he : (wr.run bs).performer.err = none) :
    wr.write bs = (wr.run bs, Except.ok bs.length) := by
  simp only [Writer.write, he]

lemma write_of_err_some {wr : Writer} {bs : List Nat} {e : Nat}
    (he : (wr.run bs).performer.err = some e) :
    wr.write bs =
      ({ wr.run bs with
          performer := { (wr.run bs).performer with err := none } },
        Except.error e) := by
  simp only [Writer.write, he]

lemma into_inner_nofail (w : LineWriter) (hf : w.sink.failAt = []) :
    ∃ s, w.into_inner = Except.ok s ∧ s.received = w.sink.received ++ w.buf := by
  by_cases hb : w.buf.isEmpty
  · have hb2 : w.buf = [] := by simpa [List.isEmpty_iff] using hb
    refine ⟨w.sink, ?_, by simp [hb2]⟩
    simp [LineWriter.into_inner, LineWriter.flush, hb]
  · refine ⟨{ received := w.sink.received ++ w.buf, failAt := w.sink.failAt, attempts := w.sink.attempts + 1 }, ?_, rfl⟩
    simp [LineWriter.into_inner, LineWriter.flush, hb, Sink.write, hf]

lemma strip_eval {data out : List Nat}
    (h : Inv ((Writer.new cursorSink).run data) out) :
    strip data = Except.ok out := by
  obtain ⟨hg, he, hf, ho⟩ := h
  obtain ⟨s, hs, hr⟩ :=
    into_inner_nofail ((Writer.new cursorSink).run data).performer.writer hf
  simp only [strip, Writer.write_all, write_of_err_none he, Writer.into_inner,
    Performer.into_inner, hs, hr, ho]

lemma run_printable_ground {l : List Nat} {wr : Writer} (hg : wr.parser = .ground)
    (he : wr.performer.err = none) (hb : ∀ b ∈ l, 0x20 ≤ b ∧ b ≤ 0x7E) :
    (wr.run l).parser = .ground ∧ (wr.run l).performer.err = none := by
  induction l generalizing wr with
  | nil => exact ⟨hg, he⟩
  | cons b l ih =>
    obtain ⟨h1, h2⟩ := hb b (List.mem_cons_self b l)
    rw [run_cons, feed_ground_print wr b hg h1 h2]
    exact ih rfl rfl (fun x hx => hb x (List.mem_cons_of_mem _ hx))

/-- Claim C1: for every input formed by interleaving printable text with
well-formed CSI sequences (`ESC [ params final-byte`), `strip` returns
exactly the input with every such CSI sequence removed and all other
bytes preserved in their original order. -/
theorem strip_removes_wellformed_csi (cs : List Chunk)
    (h : ∀ c ∈ cs, c.wf = true) :
    strip (renderAll cs) = Except.ok (visibleAll cs) := by
  have hi := inv_new.chunks h
  exact strip_eval (by simpa using hi)

/-- Witness for C1 at the concrete input `"\x1b[32mfoo"`, which strips to
`"foo"`. -/
theorem strip_removes_wellformed_csi_witness :
    strip [0x1B, 0x5B, 0x33, 0x32, 0x6D, 0x66, 0x6F, 0x6F] =
      Except.ok [0x66, 0x6F, 0x6F] :=
  strip_removes_wellformed_csi
    [Chunk.csiSeq [0x33, 0x32] 0x6D, Chunk.text [0x66, 0x6F, 0x6F]] (by decide)

/-- Claim C7 (amended): for every input consisting only of printable
bytes and linefeeds — in particular, containing no escape sequences —
`strip` returns it unchanged byte-for-byte, including embedded linefeeds;
and for plain printable text with no control bytes at all, `write` over
any sink fully consumes the buffer and reports the input length as the
number of bytes written. -/
theorem strip_plain_passthrough :
    (∀ bs : List Nat, (∀ b ∈ bs, (0x20 ≤ b ∧ b ≤ 0x7E) ∨ b = 10) →
      strip bs = Except.ok bs) ∧
    (∀ (s : Sink) (bs : List Nat), (∀ b ∈ bs, 0x20 ≤ b ∧ b ≤ 0x7E) →
      ((Writer.new s).write bs).2 = Except.ok bs.length) := by
  constructor
  · intro bs hb
    have hi := inv_new.textRun hb
    exact strip_eval (by simpa using hi)
  · intro s bs hb
    have hk := @run_printable_ground bs (Writer.new s) rfl rfl hb
    rw [write_of_err_none hk.2]

/-- Witness for C7 at the concrete input `"foo\nbar\n"` (returned
unchanged) and at plain text `"ab"` written over an arbitrary sink. -/
theorem strip_plain_passthrough_witness :
    strip [0x66, 0x6F, 0x6F, 10, 0x62, 0x61, 0x72, 10] =
      Except.ok [0x66, 0x6F, 0x6F, 10, 0x62, 0x61, 0x72, 10] ∧
    ((Writer.new failFirstSink).write [0x61, 0x62]).2 = Except.ok 2 :=
  ⟨strip_plain_passthrough.1 [0x66, 0x6F, 0x6F, 10, 0x62, 0x61, 0x72, 10]
      (by decide),
    strip_plain_passthrough.2 failFirstSink [0x61, 0x62] (by decide)⟩

/-- Counterexample for C7 as stated: the input `[0x07]` (a single BEL
byte) contains no escape sequences, yet `strip` discards it — the output
`[]` is not the input. -/
theorem strip_plain_passthrough_cx :
    strip [0x07] = Except.ok [] ∧ ([] : List Nat) ≠ [0x07] :=
  ⟨rfl, by decide⟩

/-- Claim C8: a two-byte escape sequence (`ESC` followed by a dispatch
byte such as `'7'`) embedded in printable text is fully consumed,
producing no output, and the surrounding literal text is emitted
unchanged. -/
theorem strip_twobyte_escape (pre post : List Nat) (b : Nat)
    (hpre : ∀ x ∈ pre, 0x20 ≤ x ∧ x ≤ 0x7E)
    (hpost : ∀ x ∈ post, 0x20 ≤ x ∧ x ≤ 0x7E)
    (h1 : 0x30 ≤ b) (h2 : b ≤ 0x7E) (h3 : b ≠ 0x5B) (h4 : b ≠ 0x5D)
    (h5 : b ≠ 0x50) :
    strip (pre ++ 0x1B :: b :: post) = Except.ok (pre ++ post) := by
  have i1 : Inv ((Writer.new cursorSink).run pre) pre := by
    simpa using inv_new.textRun (fun x hx => Or.inl (hpre x hx))
  have i2 := i1.twoByteRun h1 h2 h3 h4 h5
  have i3 := i2.textRun (fun x hx => Or.inl (hpost x hx))
  refine strip_eval ?_
  rw [show (0x1B :: b :: post) = [0x1B, b] ++ post from rfl, run_append,
    run_append]
  exact i3

/-- Witness for C8 at the concrete input `"foo\x1B7bar"`, which strips to
`"foobar"` (the integration test of the crate). -/
theorem strip_twobyte_escape_witness :
    strip [0x66, 0x6F, 0x6F, 0x1B, 0x37, 0x62, 0x61, 0x72] =
      Except.ok [0x66, 0x6F, 0x6F, 0x62, 0x61, 0x72] :=
  strip_twobyte_escape [0x66, 0x6F, 0x6F] [0x62, 0x61, 0x72] 0x37
    (by decide) (by decide) (by decide) (by decide) (by decide) (by decide)
    (by decide)

lemma perform_writer_eq (p1 p2 : Performer) (t : Token)
    (h : p1.writer = p2.writer) :
    (p1.perform t).writer = (p2.perform t).writer := by
  cases t with
  | execute b =>
    by_cases hb : b = 10 <;> simp [Performer.perform, hb, h]
  | print c => simp [Performer.perform, h]
  | _ => simp [Performer.perform, h]

lemma run_components (bs : List Nat) (wr1 wr2 : Writer)
    (hp : wr1.parser = wr2.parser)
    (hw : wr1.performer.writer = wr2.performer.writer) :
    (wr1.run bs).parser = (wr2.run bs).parser ∧
    (wr1.run bs).performer.writer = (wr2.run bs).performer.writer := by
  induction bs generalizing wr1 wr2 with
  | nil => exact ⟨hp, hw⟩
  | cons b bs ih =>
    rw [run_cons, run_cons]
    refine ih _ _ ?_ ?_
    · simp [Writer.feed, hp]
    · simp only [Writer.feed]
      rw [hp]
      exact perform_writer_eq _ _ _ hw

lemma write_fst_components (wr : Writer) (bs : List Nat) :
    ((wr.write bs).1).parser = (wr.run bs).parser ∧
    ((wr.write bs).1).performer.writer = (wr.run bs).performer.writer := by
  cases he : (wr.run bs).performer.err with
  | none => rw [write_of_err_none he]; exact ⟨rfl, rfl⟩
  | some e => rw [write_of_err_some he]; exact ⟨rfl, rfl⟩

lemma writeSeq_components (bss : List (List Nat)) (wr : Writer) :
    (wr.writeSeq bss).parser = (wr.run bss.flatten).parser ∧
    (wr.writeSeq bss).performer.writer =
      (wr.run bss.flatten).performer.writer := by
  induction bss generalizing wr with
  | nil => exact ⟨rfl, rfl⟩
  | cons bs bss ih =>
    have hws : wr.writeSeq (bs :: bss) = ((wr.write bs).1).writeSeq bss := rfl
    have h1 := ih ((wr.write bs).1)
    have h2 := write_fst_components wr bs
    have h3 := run_components bss.flatten ((wr.write bs).1) (wr.run bs) h2.1 h2.2
    rw [hws, List.flatten_cons, run_append]
    exact ⟨h1.1.trans h3.1, h1.2.trans h3.2⟩

/-- Claim C2: `Writer::write` feeds every byte of the buffer to the
parser in order — the resulting parser and sink state are those of the
full in-order fold, and are insensitive to any error already recorded
(`setErr`) — and after all bytes are processed it returns the recorded
error if one exists, and otherwise the full length of the input buffer;
it never reports partial consumption. -/
theorem write_contract (wr : Writer) (bs : List Nat) :
    ((wr.write bs).1.parser = (wr.run bs).parser ∧
      (wr.write bs).1.performer.writer = (wr.run bs).performer.writer) ∧
    ((wr.run bs).performer.err = none →
      (wr.write bs).2 = Except.ok bs.length) ∧
    (∀ e, (wr.run bs).performer.err = some e →
      (wr.write bs).2 = Except.error e) ∧
    (∀ n, (wr.write bs).2 = Except.ok n → n = bs.length) ∧
    (∀ e, ((wr.setErr e).run bs).parser = (wr.run bs).parser ∧
      ((wr.setErr e).run bs).performer.writer =
        (wr.run bs).performer.writer) := by
  refine ⟨write_fst_components wr bs, ?_, ?_, ?_, ?_⟩
  · intro he; rw [write_of_err_none he]
  · intro e he; rw [write_of_err_some he]
  · intro n hn
    cases he : (wr.run bs).performer.err with
    | none =>
      rw [write_of_err_none he] at hn
      simpa using hn.symm
    | some e =>
      rw [write_of_err_some he] at hn
      exact absurd hn (by simp)
  · intro e
    exact run_components bs _ _ rfl rfl

/-- Witness for C2: writing the single printable byte `'a'` over an
in-memory sink records no error and reports length 1. -/
theorem write_contract_witness :
    ((Writer.new cursorSink).write [0x61]).2 = Except.ok 1 :=
  (write_contract (Writer.new cursorSink) [0x61]).2.1 rfl

/-- Claim C10: the pending-error slot is empty immediately after every
`write` call returns — `take` empties it whether `write` returns the
error or the byte count — so an error recorded during one `write` call
can never be reported by a later one. -/
theorem err_slot_empty_after_write (wr : Writer) (bs : List Nat) :
    ((wr.write bs).1).performer.err = none := by
  cases he : (wr.run bs).performer.err with
  | none => rw [write_of_err_none he]; exact he
  | some e => rw [write_of_err_some he]

/-- Claim C4: per classified token, the dispatcher forwards a printable
character (encoded as its byte) to the line-buffered writer and records
the outcome; forwards a linefeed likewise; and discards every other
control byte and every sequence token (`hook`, `put`, `unhook`, OSC, CSI
and ESC dispatches) entirely — no forwarding and no change to the error
slot, regardless of parameters. -/
theorem performer_dispatch_contract (p : Performer) :
    (∀ c, p.perform (.print c) =
      { writer := (p.writer.write [c]).1, err := (p.writer.write [c]).2 }) ∧
    (p.perform (.execute 10) =
      { writer := (p.writer.write [10]).1, err := (p.writer.write [10]).2 }) ∧
    (∀ b, b ≠ 10 → p.perform (.execute b) = p) ∧
    (∀ ps is ig, p.perform (.hook ps is ig) = p) ∧
    (∀ b, p.perform (.put b) = p) ∧
    (p.perform .unhook = p) ∧
    (∀ ps, p.perform (.oscDispatch ps) = p) ∧
    (∀ ps is ig a, p.perform (.csiDispatch ps is ig a) = p) ∧
    (∀ ps is ig b, p.perform (.escDispatch ps is ig b) = p) :=
  ⟨fun _ => rfl, rfl, perform_execute_other p, fun _ _ _ => rfl, fun _ => rfl,
    rfl, fun _ => rfl, fun _ _ _ _ => rfl, fun _ _ _ _ => rfl⟩

/-- Witness for C4: the carriage-return control byte (13) is discarded
without touching the dispatcher's state. -/
theorem performer_dispatch_contract_witness :
    ({ writer := { sink := cursorSink, buf := [] }, err := none }
        : Performer).perform (.execute 13) =
      { writer := { sink := cursorSink, buf := [] }, err := none } :=
  (performer_dispatch_contract _).2.2.1 13 (by decide)

/-- Claim C5: feeding an input in one `write` call and feeding any
partition of it into consecutive chunks across many `write` calls leave
the downstream sink, the line buffer and the parser state identical —
output never depends on buffer boundaries. -/
theorem chunked_writes_equal (wr : Writer) (bss : List (List Nat)) :
    (wr.writeSeq bss).performer.writer =
      ((wr.write bss.flatten).1).performer.writer ∧
    (wr.writeSeq bss).parser = ((wr.write bss.flatten).1).parser := by
  have h1 := writeSeq_components bss wr
  have h2 := write_fst_components wr bss.flatten
  exact ⟨h1.2.trans h2.2.symm, h1.1.trans h2.1.symm⟩

/-- Claim C6: the one-shot `strip` function returns exactly what the
explicit sequence — construct a `Writer` over a fresh in-memory buffer,
write the whole input once, and unwrap to recover the buffer —
returns. -/
theorem strip_eq_writer_roundtrip (data : List Nat) :
    strip data = stripViaWriter data := by
  simp only [strip, stripViaWriter, Writer.write_all]
  cases hr : (Writer.new cursorSink).write data with
  | mk w2 r => cases r <;> rfl

lemma performT_fst (p : Performer) (t : Token) :
    (p.performT t).1 = p.perform t := by
  cases t with
  | execute b => by_cases hb : b = 10 <;> simp [Performer.performT, Performer.perform, hb]
  | print c => rfl
  | _ => rfl

lemma performT_err (p : Performer) (t : Token) :
    (p.perform t).err = ((p.performT t).2).foldl (fun _ o => o) p.err := by
  cases t with
  | execute b => by_cases hb : b = 10 <;> simp [Performer.performT, Performer.perform, hb]
  | print c => rfl
  | _ => rfl

lemma foldT_acc (bs : List Nat) (wr : Writer) (t : List (Option Nat)) :
    bs.foldl Writer.feedT (wr, t) =
      ((bs.foldl Writer.feedT (wr, [])).1,
        t ++ (bs.foldl Writer.feedT (wr, [])).2) := by
  induction bs generalizing wr t with
  | nil => simp
  | cons b bs ih =>
    simp only [List.foldl_cons]
    have hsplit : Writer.feedT (wr, t) b =
        ((Writer.feedT (wr, []) b).1, t ++ (Writer.feedT (wr, []) b).2) := rfl
    rw [hsplit, ih (Writer.feedT (wr, []) b).1 (t ++ (Writer.feedT (wr, []) b).2)]
    have h2 := ih (Writer.feedT (wr, []) b).1 (Writer.feedT (wr, []) b).2
    rw [show (Writer.feedT (wr, []) b) =
      ((Writer.feedT (wr, []) b).1, (Writer.feedT (wr, []) b).2) from rfl, h2]
    simp

lemma feedT_fst (wr : Writer) (b : Nat) :
    (Writer.feedT (wr, []) b).1 = wr.feed b := by
  simp [Writer.feedT, Writer.feed, performT_fst]

lemma trace_cons (wr : Writer) (b : Nat) (bs : List Nat) :
    wr.trace (b :: bs) =
      (wr.performer.performT (advance wr.parser b).2).2 ++
        (wr.feed b).trace bs := by
  unfold Writer.trace
  simp only [List.foldl_cons]
  rw [show (Writer.feedT (wr, []) b) =
    ((Writer.feedT (wr, []) b).1, (Writer.feedT (wr, []) b).2) from rfl]
  rw [foldT_acc bs (Writer.feedT (wr, []) b).1 (Writer.feedT (wr, []) b).2,
    feedT_fst]
  rfl

lemma trace_fst_run (bs : List Nat) (wr : Writer) :
    (bs.foldl Writer.feedT (wr, [])).1 = wr.run bs := by
  induction bs generalizing wr with
  | nil => rfl
  | cons b bs ih =>
    simp only [List.foldl_cons, run_cons]
    rw [show (Writer.feedT (wr, []) b) =
      ((Writer.feedT (wr, []) b).1, (Writer.feedT (wr, []) b).2) from rfl]
    rw [foldT_acc bs (Writer.feedT (wr, []) b).1 (Writer.feedT (wr, []) b).2]
    rw [feedT_fst]
    exact ih (wr.feed b)

lemma run_err_eq_last_trace (bs : List Nat) (wr : Writer) :
    (wr.run bs).performer.err =
      (wr.trace bs).foldl (fun _ o => o) wr.performer.err := by
  induction bs generalizing wr with
  | nil => rfl
  | cons b bs ih =>
    rw [run_cons, trace_cons, List.foldl_append, ih]
    congr 1
    exact performT_err wr.performer (advance wr.parser b).2

lemma foldl_last_getD (t : List (Option Nat)) (d : Option Nat) :
    t.foldl (fun _ o => o) d = t.getLast?.getD d := by
  induction t generalizing d with
  | nil => rfl
  | cons o rest ih =>
    rw [List.foldl_cons, ih]
    cases rest with
    | nil => rfl
    | cons x xs =>
      rw [List.getLast?_cons_cons]
      cases h : (x :: xs).getLast? with
      | none => exact absurd h (by simp)
      | some y => rfl

/-- Counterexample for C3 as stated: over a sink whose first attempt
fails, writing two linefeeds makes two forwarding attempts — the first
fails, the second succeeds — yet `write` returns success: the failure
was silently dropped because the error slot is overwritten by the
outcome of every forwarding attempt. -/
theorem write_error_dropped_cx :
    (Writer.new failFirstSink).trace [10, 10] = [some 0, none] ∧
    ((Writer.new failFirstSink).write [10, 10]).2 = Except.ok 2 :=
  ⟨rfl, rfl⟩

/-- Claim C3 (amended): the error slot always holds the outcome of the
most recent forwarding attempt of the call, so `write` returns an error
exactly when the last forwarding attempt in that call failed (or, when
the call makes no forwarding attempt, when the slot already held an
error); a failure followed by a later successful attempt in the same
call is overwritten and the call reports success. -/
theorem write_error_is_last_attempt (wr : Writer) (bs : List Nat) :
    (∀ e, ((wr.write bs).2 = Except.error e ↔
      (wr.trace bs).getLast?.getD wr.performer.err = some e)) ∧
    ((wr.trace bs).getLast?.getD wr.performer.err = none →
      (wr.write bs).2 = Except.ok bs.length) := by
  have hkey : (wr.run bs).performer.err =
      (wr.trace bs).getLast?.getD wr.performer.err := by
    rw [run_err_eq_last_trace, foldl_last_getD]
  constructor
  · intro e
    constructor
    · intro h
      cases he : (wr.run bs).performer.err with
      | none =>
        rw [write_of_err_none he] at h
        exact absurd h (by simp)
      | some e2 =>
        rw [write_of_err_some he] at h
        have he2 : e2 = e := by simpa using h
        rw [← hkey, he, he2]
    · intro h
      rw [write_of_err_some (hkey.trans h)]
  · intro h
    rw [write_of_err_none (hkey.trans h)]

/-- Witness for the amended C3: over a sink whose second attempt fails,
writing two linefeeds ends with a failing attempt, and `write` reports
exactly that error. -/
theorem write_error_is_last_attempt_witness :
    ((Writer.new failSecondSink).write [10, 10]).2 = Except.error 1 :=
  ((write_error_is_last_attempt (Writer.new failSecondSink) [10, 10]).1 1).mpr
    rfl

/-- Claim C9: unwrapping a `Writer` (`into_inner`) flushes the
internally buffered bytes into the sink and returns it — on success the
returned sink has received exactly the previously flushed bytes followed
by the buffered ones; if the final flush fails, the error still carries
the line writer that owns the sink, with the buffered bytes and the
sink's received data intact, so nothing is silently lost. -/
theorem into_inner_contract (wr : Writer) :
    (∀ s, wr.into_inner = Except.ok s →
      s.received = wr.performer.writer.sink.received ++
        wr.performer.writer.buf) ∧
    (∀ e w2, wr.into_inner = Except.error (e, w2) →
      w2.buf = wr.performer.writer.buf ∧
      w2.sink.received = wr.performer.writer.sink.received) := by
  by_cases hb : wr.performer.writer.buf.isEmpty
  · have hb2 : wr.performer.writer.buf = [] := by
      simpa [List.isEmpty_iff] using hb
    have hii : wr.into_inner = Except.ok wr.performer.writer.sink := by
      simp [Writer.into_inner, Performer.into_inner, LineWriter.into_inner,
        LineWriter.flush, hb]
    constructor
    · intro s hs
      rw [hii] at hs
      have : wr.performer.writer.sink = s := by simpa using hs
      rw [← this, hb2]
      simp
    · intro e w2 hs
      rw [hii] at hs
      exact absurd hs (by simp)
  · by_cases hmem : wr.performer.writer.sink.attempts ∈
        wr.performer.writer.sink.failAt
    · have hii : wr.into_inner =
          Except.error (wr.performer.writer.sink.attempts,
            { sink := { wr.performer.writer.sink with
                attempts := wr.performer.writer.sink.attempts + 1 },
              buf := wr.performer.writer.buf }) := by
        simp [Writer.into_inner, Performer.into_inner, LineWriter.into_inner,
          LineWriter.flush, hb, Sink.write, hmem]
      constructor
      · intro s hs
        rw [hii] at hs
        exact absurd hs (by simp)
      · intro e w2 hs
        rw [hii] at hs
        simp only [Except.error.injEq, Prod.mk.injEq] at hs
        obtain ⟨he, hw2⟩ := hs
        rw [← hw2]
        exact ⟨rfl, rfl⟩
    · have hii : wr.into_inner =
          Except.ok (Sink.mk
            (wr.performer.writer.sink.received ++ wr.performer.writer.buf)
            wr.performer.writer.sink.failAt
            (wr.performer.writer.sink.attempts + 1)) := by
        simp [Writer.into_inner, Performer.into_inner, LineWriter.into_inner,
          LineWriter.flush, hb, Sink.write, hmem]
      constructor
      · intro s hs
        rw [hii] at hs
        have hse := Except.ok.inj hs
        rw [← hse]
      · intro e w2 hs
        rw [hii] at hs
        exact absurd hs (by simp)

/-- Witness for C9: a writer holding one buffered byte over a
never-failing sink unwraps to a sink that has received exactly that
byte. -/
theorem into_inner_contract_witness :
    ∃ s, bufferedW.into_inner = Except.ok s ∧ s.received = [] ++ [0x61] :=
  ⟨{ received := [0x61], failAt := [], attempts := 1 }, rfl,
    (into_inner_contract bufferedW).1 _ rfl⟩

end StripAnsi
